import Mathlib

/-! CryptoPulse: the series store and the mode controller of `src/App.js`.

A shallow embedding of the data-refresh logic of the `App` component:

* the values a JSON response can carry, and the JavaScript operations the
  component applies to them (property read, index read, `toFixed`, `map`,
  `slice`);
* the two fetch routines `fetchLivePrices` and `fetchHistoricalPrices`, as the
  list of state updates (`setPrices`, `setTimestamps`) each one enqueues;
* the re-render that applies the enqueued updates to the two `useState` cells;
* the mode effect (`useEffect` on `[mode]`) with its interval timer.
-/

namespace CryptoPulse

/-! ## JavaScript values -/

/-- A JavaScript Number: a finite double of exact value `(-1)^neg * m * 2^e`,
or one of the non-finite values. -/
inductive JsNum where
  | finite (neg : Bool) (m : Nat) (e : Int)
  | nan
  | inf (neg : Bool)
deriving DecidableEq

/-- The values `JSON.parse` can produce, together with `undefined`. An object is
the list of its own properties. -/
inductive JsVal where
  | undefined
  | null
  | bool (b : Bool)
  | num (x : JsNum)
  | str (s : String)
  | arr (xs : List JsVal)
  | obj (fields : List (String × JsVal))

/-- The exceptions the fetch routines can meet. -/
inductive JsError where
  | typeError
  | networkError
deriving DecidableEq

/-- What the JavaScript host supplies and the component only calls:
`Number::toString` (used by `toFixed` from `10^21` on) and the two locale
formatters applied to `new Date(v)`. -/
structure Host where
  numberToString : JsNum → String
  toLocaleDateString : JsVal → String
  toLocaleTimeString : JsVal → String

/-- Read `v.k` for a property name `k` that no prototype defines (here `bitcoin`,
`ethereum`, `binancecoin`, `usd`, `prices`): a `TypeError` on `undefined` and
`null`, the own property on an object, `undefined` otherwise. -/
def getProp (v : JsVal) (k : String) : Except JsError JsVal :=
  match v with
  | .undefined => .error .typeError
  | .null => .error .typeError
  | .obj fields =>
    match fields.lookup k with
    | some w => .ok w
    | none => .ok .undefined
  | _ => .ok .undefined

/-- Read `v[i]` for an index `i`. -/
def getIndex (v : JsVal) (i : Nat) : Except JsError JsVal :=
  match v with
  | .undefined => .error .typeError
  | .null => .error .typeError
  | .arr xs =>
    match xs.get? i with
    | some w => .ok w
    | none => .ok .undefined
  | .str s =>
    match s.data.get? i with
    | some c => .ok (.str (String.mk [c]))
    | none => .ok .undefined
  | .obj fields =>
    match fields.lookup (toString i) with
    | some w => .ok w
    | none => .ok .undefined
  | _ => .ok .undefined

/-! ## `Number.prototype.toFixed` -/

/-- The digits of `n` in base ten, most significant first, with `fuel` bounding
the number of digits. -/
def decDigits : Nat → Nat → List Char
  | 0, _ => []
  | fuel + 1, n =>
    if n < 10 then [Nat.digitChar n]
    else decDigits fuel (n / 10) ++ [Nat.digitChar (n % 10)]

/-- The decimal representation of `n`, with no leading zero (`0` is `"0"`). -/
def decimal (n : Nat) : List Char := decDigits (n + 1) n

/-- Whether `m * 2^e` is at least `10^21`. -/
def atLeast1e21 (m : Nat) (e : Int) : Bool :=
  if 0 ≤ e then decide (10 ^ 21 ≤ m * 2 ^ e.toNat)
  else decide (10 ^ 21 * 2 ^ (-e).toNat ≤ m)

/-- The integer `n` for which `n / 10^f - m * 2^e` is as close to zero as
possible, the larger one when there are two. -/
def roundScaled (f m : Nat) (e : Int) : Nat :=
  if 0 ≤ e then m * 10 ^ f * 2 ^ e.toNat
  else (2 * (m * 10 ^ f) + 2 ^ (-e).toNat) / (2 * 2 ^ (-e).toNat)

/-- Steps 8 to 10 of `toFixed`: the digits of `n`, padded on the left with zeros to
`f + 1` characters, with a point before the last `f` of them when `f` is not `0`. -/
def fixedDigits (f n : Nat) : List Char :=
  let m := decimal n
  let m := List.replicate (f + 1 - m.length) '0' ++ m
  if f = 0 then m
  else m.take (m.length - f) ++ '.' :: m.drop (m.length - f)

/-- The method `x.toFixed(f)` on a Number `x`, for `0 ≤ f ≤ 100`. -/
def toFixed (h : Host) (f : Nat) : JsNum → String
  | .nan => "NaN"
  | .inf false => "Infinity"
  | .inf true => "-Infinity"
  | .finite neg m e =>
    let s : List Char := if neg && m != 0 then ['-'] else []
    if atLeast1e21 m e then String.mk s ++ h.numberToString (.finite false m e)
    else String.mk (s ++ fixedDigits f (roundScaled f m e))

/-- The call `v.toFixed(2)`: a `TypeError` unless `v` is a Number. -/
def callToFixed2 (h : Host) (v : JsVal) : Except JsError String :=
  match v with
  | .num x => .ok (toFixed h 2 x)
  | _ => .error .typeError

/-- The loop of `Array.prototype.map` with a callback that may throw. -/
def mapArray {β : Type} (f : JsVal → Except JsError β) : List JsVal → Except JsError (List β)
  | [] => .ok []
  | x :: xs =>
    match f x with
    | .error err => .error err
    | .ok y =>
      match mapArray f xs with
      | .error err => .error err
      | .ok ys => .ok (y :: ys)

/-- The call `v.map(f)`: a `TypeError` unless `v` is an array. -/
def callMap {β : Type} (v : JsVal) (f : JsVal → Except JsError β) : Except JsError (List β) :=
  match v with
  | .arr xs => mapArray f xs
  | _ => .error .typeError

/-- The call `xs.slice(start)` on an array. -/
def slice {α : Type} (xs : List α) (start : Int) : List α :=
  let len : Int := xs.length
  let k : Int := if start < 0 then max (len + start) 0 else min start len
  xs.drop k.toNat

/-! ## The series store -/

/-- The state cell `prices`. -/
structure Prices where
  BTC : List String
  ETH : List String
  BNB : List String
deriving DecidableEq

/-- The two state cells of the component that hold the series. -/
structure Store where
  prices : Prices
  timestamps : List String
deriving DecidableEq

/-- The initial values given to `useState`. -/
def emptyStore : Store := { prices := { BTC := [], ETH := [], BNB := [] }, timestamps := [] }

/-- A call of a state setter made by a fetch routine. The argument of `setPrices` in
`fetchLivePrices` is an updater function whose body reads the response, so it may
throw when the re-render runs it. -/
inductive SetState where
  | setPrices (f : Prices → Except JsError Prices)
  | setTimestamps (f : List String → List String)

/-- The outcome of one `axios.get`. -/
inductive Response where
  | rejected
  | resolved (data : JsVal)

/-- The expression `res.data.<coin>.usd.toFixed(2)`. -/
def usdFixed (h : Host) (data : JsVal) (coin : String) : Except JsError String :=
  match getProp data coin with
  | .error err => .error err
  | .ok c =>
    match getProp c "usd" with
    | .error err => .error err
    | .ok u => callToFixed2 h u

/-- The updater function passed to `setPrices` in `fetchLivePrices`. -/
def livePricesUpdater (h : Host) (data : JsVal) (prev : Prices) : Except JsError Prices :=
  match usdFixed h data "bitcoin" with
  | .error err => .error err
  | .ok b =>
    match usdFixed h data "ethereum" with
    | .error err => .error err
    | .ok e =>
      match usdFixed h data "binancecoin" with
      | .error err => .error err
      | .ok n =>
        .ok { BTC := slice prev.BTC (-9) ++ [b],
              ETH := slice prev.ETH (-9) ++ [e],
              BNB := slice prev.BNB (-9) ++ [n] }

/-- The updater function passed to `setTimestamps` in `fetchLivePrices`. -/
def liveTimestampsUpdater (time : String) (prev : List String) : List String :=
  slice prev (-9) ++ [time]

/-- The routine `fetchLivePrices`, as the state updates it enqueues: `res` is the outcome
of the request and `time` the value of `new Date().toLocaleTimeString()`. A rejected
request goes to the `catch` branch, which only logs. -/
def fetchLivePrices (h : Host) (res : Response) (time : String) : List SetState :=
  match res with
  | .rejected => []
  | .resolved data =>
    [.setPrices (livePricesUpdater h data), .setTimestamps (liveTimestampsUpdater time)]

/-- The expression `results[i].data.prices.map((p) => p[1].toFixed(2))`. -/
def chartPrices (h : Host) (data : JsVal) : Except JsError (List String) :=
  match getProp data "prices" with
  | .error err => .error err
  | .ok ps =>
    callMap ps (fun p =>
      match getIndex p 1 with
      | .error err => .error err
      | .ok x => callToFixed2 h x)

mutual
/-- Whether `ToPrimitive(v)`, the first step of `new Date(v)`, throws a `TypeError`. A
parsed object does when it has an own property `toString` (never callable in a parsed
body, and the inherited `valueOf` returns the object itself); an array is joined, so it
does when one of its elements does; a primitive never does. -/
def toPrimitiveThrows : JsVal → Bool
  | .obj fields => (fields.lookup "toString").isSome
  | .arr xs => joinThrows xs
  | _ => false
/-- Whether `Array.prototype.join` throws on the elements `xs`. -/
def joinThrows : List JsVal → Bool
  | [] => false
  | x :: xs => toPrimitiveThrows x || joinThrows xs
end

/-- The expression `new Date(t).<format>()`: the constructor may throw, the formatter of
the host does not. -/
def formatDate (format : JsVal → String) (t : JsVal) : Except JsError String :=
  if toPrimitiveThrows t then .error .typeError else .ok (format t)

/-- The expression `results[0].data.prices.map((p) => new Date(p[0]).<format>())`. -/
def chartLabels (format : JsVal → String) (data : JsVal) : Except JsError (List String) :=
  match getProp data "prices" with
  | .error err => .error err
  | .ok ps =>
    callMap ps (fun p =>
      match getIndex p 0 with
      | .error err => .error err
      | .ok t => formatDate format t)

/-- The `try` block of `fetchHistoricalPrices`, up to the two setter calls: the joined
requests, the three price lists and the labels. -/
def historicalSeries (h : Host) (days : String) (r0 r1 r2 : Response) :
    Except JsError (Prices × List String) :=
  match r0, r1, r2 with
  | .resolved d0, .resolved d1, .resolved d2 =>
    match chartPrices h d0 with
    | .error err => .error err
    | .ok btcPrices =>
      match chartPrices h d1 with
      | .error err => .error err
      | .ok ethPrices =>
        match chartPrices h d2 with
        | .error err => .error err
        | .ok bnbPrices =>
          match (if days = "1" then chartLabels h.toLocaleTimeString d0
                 else chartLabels h.toLocaleDateString d0) with
          | .error err => .error err
          | .ok timeLabels =>
            .ok ({ BTC := btcPrices, ETH := ethPrices, BNB := bnbPrices }, timeLabels)
  | _, _, _ => .error .networkError

/-- The routine `fetchHistoricalPrices(days)`, as the state updates it enqueues: `r0`,
`r1`, `r2` are the outcomes of the requests for bitcoin, ethereum and binancecoin. Any
exception in the `try` block goes to the `catch` branch, which only logs. -/
def fetchHistoricalPrices (h : Host) (days : String) (r0 r1 r2 : Response) : List SetState :=
  match historicalSeries h days r0 r1 r2 with
  | .error _ => []
  | .ok (p, labels) => [.setPrices (fun _ => .ok p), .setTimestamps (fun _ => labels)]

/-- One state update applied by the re-render. -/
def applySetState (s : Store) : SetState → Except JsError Store
  | .setPrices f =>
    match f s.prices with
    | .error err => .error err
    | .ok p => .ok { s with prices := p }
  | .setTimestamps f => .ok { s with timestamps := f s.timestamps }

/-- The re-render after a fetch routine has run: the enqueued updates are applied in
order; an exception thrown by an updater is thrown by the render. -/
def render (s : Store) : List SetState → Except JsError Store
  | [] => .ok s
  | u :: us =>
    match applySetState s u with
    | .error err => .error err
    | .ok s1 => render s1 us

/-! ## The mode controller -/

/-- A fetch in flight: which routine issued it. -/
inductive Request where
  | live
  | historical (days : String)
deriving DecidableEq

/-- The component between two events: the series store, the state cell `mode`, the
interval timers that are active, the cleanup function returned by the last run of the
mode effect (`clearInterval` of the handle it holds), the fetches in flight, and the
next fresh timer handle. -/
structure App where
  store : Store
  mode : String
  timers : List Nat
  cleanup : Option Nat
  pending : List Request
  nextTimer : Nat
deriving DecidableEq

/-- The cleanup of the previous effect run, called before the effect runs again. -/
def runCleanup (a : App) : App :=
  match a.cleanup with
  | some i => { a with timers := a.timers.filter (fun j => j != i), cleanup := none }
  | none => a

/-- The body of the effect on `[mode]`. -/
def modeEffect (a : App) : App :=
  if a.mode = "live" then
    { a with
      pending := a.pending ++ [Request.live]
      timers := a.timers ++ [a.nextTimer]
      cleanup := some a.nextTimer
      nextTimer := a.nextTimer + 1 }
  else
    { a with
      pending := a.pending ++ [Request.historical a.mode]
      cleanup := none }

/-- The component after its first render: `mode` is `"live"` and the effect has run. -/
def mount : App :=
  modeEffect
    { store := emptyStore, mode := "live", timers := [], cleanup := none,
      pending := [], nextTimer := 0 }

/-- A click on a mode button: `setMode(m)`. A value equal to the current one leaves the
dependency list `[mode]` unchanged, so the effect does not run. -/
def setMode (m : String) (a : App) : App :=
  if m = a.mode then a else modeEffect (runCleanup { a with mode := m })

/-- The interval with handle `i` fires: `fetchLivePrices` is called if it is active. -/
def tick (i : Nat) (a : App) : App :=
  if i ∈ a.timers then { a with pending := a.pending ++ [Request.live] } else a

/-- What a fetch in flight receives when it completes. -/
inductive Completion where
  | live (res : Response) (time : String)
  | historical (r0 r1 r2 : Response)

/-- The fetch at position `k` of the fetches in flight completes: its routine enqueues
its updates and the component re-renders. -/
def complete (h : Host) (k : Nat) (c : Completion) (a : App) : Except JsError App :=
  match a.pending.get? k, c with
  | some Request.live, Completion.live res time =>
    match render a.store (fetchLivePrices h res time) with
    | .error err => .error err
    | .ok s => .ok { a with store := s, pending := a.pending.eraseIdx k }
  | some (Request.historical days), Completion.historical r0 r1 r2 =>
    match render a.store (fetchHistoricalPrices h days r0 r1 r2) with
    | .error err => .error err
    | .ok s => .ok { a with store := s, pending := a.pending.eraseIdx k }
  | _, _ => .ok a

/-- The events of the component. -/
inductive Event where
  | setMode (m : String)
  | tick (i : Nat)
  | complete (k : Nat) (c : Completion)

/-- One event. -/
def step (h : Host) (a : App) : Event → Except JsError App
  | .setMode m => .ok (setMode m a)
  | .tick i => .ok (tick i a)
  | .complete k c => complete h k c a

/-- A sequence of events, stopping at the first exception thrown by a render. -/
def run (h : Host) (a : App) : List Event → Except JsError App
  | [] => .ok a
  | ev :: evs =>
    match step h a ev with
    | .error err => .error err
    | .ok a1 => run h a1 evs

/-- The four values the mode buttons pass to `setMode`. -/
def modes : List String := ["live", "30", "180", "365"]

/-- A sequence of mode selections. -/
def selectAll (a : App) : List String → App
  | [] => a
  | m :: ms => selectAll (setMode m a) ms

/-! ## Reference definitions and well-formed responses -/

/-- The last `n` elements of `l`: the `suffix(n)` of the specification. -/
def specSuffix {α : Type} (n : Nat) (l : List α) : List α := l.drop (l.length - n)

/-- The four sequences of the store have the same length. -/
def Aligned (s : Store) : Prop :=
  s.timestamps.length = s.prices.BTC.length ∧
  s.prices.BTC.length = s.prices.ETH.length ∧
  s.prices.ETH.length = s.prices.BNB.length

instance (s : Store) : Decidable (Aligned s) := by
  unfold Aligned; infer_instance

/-- The body of a live response with a USD price for each of the three coins. -/
def liveData (btc eth bnb : JsNum) : JsVal :=
  .obj [("bitcoin", .obj [("usd", .num btc)]),
        ("ethereum", .obj [("usd", .num eth)]),
        ("binancecoin", .obj [("usd", .num bnb)])]

/-- One live sample: the three prices of the response and the clock label. -/
structure LiveSample where
  btc : JsNum
  eth : JsNum
  bnb : JsNum
  time : String

/-- Consecutive live fetches, each followed by its re-render. -/
def liveFetches (h : Host) (s : Store) : List (Response × String) → Except JsError Store
  | [] => .ok s
  | (res, time) :: rest =>
    match render s (fetchLivePrices h res time) with
    | .error err => .error err
    | .ok s1 => liveFetches h s1 rest

/-- The request outcome that carries the sample `x`. -/
def sampleResponse (x : LiveSample) : Response × String :=
  (Response.resolved (liveData x.btc x.eth x.bnb), x.time)

/-- The body of a historical response: `prices` is the array of the pairs
`[epochMillis, price]`. -/
def chartData (pairs : List (JsVal × JsNum)) : JsVal :=
  .obj [("prices", .arr (pairs.map (fun p => JsVal.arr [p.1, JsVal.num p.2])))]

/-- The entry `p` of a `prices` array carries a Number at index `1`. -/
def HasPrice (p : JsVal) : Prop := ∃ x, getIndex p 1 = .ok (.num x)

/-- The body `data` has a `prices` array whose every entry carries a price. -/
def UsableChart (data : JsVal) : Prop :=
  ∃ entries, getProp data "prices" = .ok (.arr entries) ∧ ∀ p ∈ entries, HasPrice p

/-- A historical request fails: it is rejected, or its body has no usable `prices`. -/
def Fails (r : Response) : Prop :=
  match r with
  | .rejected => True
  | .resolved data => ¬ UsableChart data

/-- The entry `p` is a pair `[epochMillis, number]`: an array of two Numbers. -/
def IsPricePair (p : JsVal) : Prop := ∃ t x, p = JsVal.arr [JsVal.num t, JsVal.num x]

/-- The body `data` has a `prices` array of pairs `[epochMillis, number]`. -/
def HasPricePairs (data : JsVal) : Prop :=
  ∃ entries, getProp data "prices" = .ok (.arr entries) ∧ ∀ p ∈ entries, IsPricePair p

/-- A historical request fails in the sense of the specification: it is rejected, or its
body has no `prices` array of pairs `[epochMillis, number]`. -/
def FailsAsStated (r : Response) : Prop :=
  match r with
  | .rejected => True
  | .resolved data => ¬ HasPricePairs data

/-- The body `data` has a `prices` array with an entry whose index `0` holds a value on
which `new Date` throws. -/
def LabelThrows (data : JsVal) : Prop :=
  ∃ entries p t, getProp data "prices" = .ok (.arr entries) ∧ p ∈ entries ∧
    getIndex p 0 = .ok t ∧ toPrimitiveThrows t = true

/-- The `prices` array of a response body, when it has one. -/
def pricesLength (data : JsVal) : Option Nat :=
  match getProp data "prices" with
  | .ok (.arr entries) => some entries.length
  | _ => none

/-- One successful update of the store: a live fetch or a historical fetch whose updates
were enqueued and applied without an exception. -/
inductive Update (h : Host) : Store → Store → Prop where
  | live (s s1 : Store) (data : JsVal) (time : String) :
      render s (fetchLivePrices h (.resolved data) time) = .ok s1 → Update h s s1
  | historical (s s1 : Store) (days : String) (r0 r1 r2 : Response) :
      fetchHistoricalPrices h days r0 r1 r2 ≠ [] →
      render s (fetchHistoricalPrices h days r0 r1 r2) = .ok s1 → Update h s s1

/-- The stores reached from the empty store by successful updates. -/
inductive Reachable (h : Host) : Store → Prop where
  | init : Reachable h emptyStore
  | next (s s1 : Store) : Reachable h s → Update h s s1 → Reachable h s1

/-- A successful update in which a historical fetch received three `prices` arrays of
one length. -/
inductive UpdateEq (h : Host) : Store → Store → Prop where
  | live (s s1 : Store) (data : JsVal) (time : String) :
      render s (fetchLivePrices h (.resolved data) time) = .ok s1 → UpdateEq h s s1
  | historical (s s1 : Store) (days : String) (d0 d1 d2 : JsVal) (n : Nat) :
      pricesLength d0 = some n → pricesLength d1 = some n → pricesLength d2 = some n →
      fetchHistoricalPrices h days (.resolved d0) (.resolved d1) (.resolved d2) ≠ [] →
      render s (fetchHistoricalPrices h days (.resolved d0) (.resolved d1) (.resolved d2))
        = .ok s1 →
      UpdateEq h s s1

/-- The stores reached from the empty store by such updates. -/
inductive ReachableEq (h : Host) : Store → Prop where
  | init : ReachableEq h emptyStore
  | next (s s1 : Store) : ReachableEq h s → UpdateEq h s s1 → ReachableEq h s1

/-- A host for the concrete evaluations: dates are shown by a fixed text. -/
def sampleHost : Host :=
  { numberToString := fun _ => "1e+21"
    toLocaleDateString := fun _ => "1/1/2024"
    toLocaleTimeString := fun _ => "12:00:00 AM" }

/-- The store whose four sequences hold the samples `xs` in arrival order: each price
as `toFixed(2)` renders it, each label as the clock gave it. -/
def storeOfSamples (h : Host) (xs : List LiveSample) : Store :=
  { prices := { BTC := xs.map (fun x => toFixed h 2 x.btc),
                ETH := xs.map (fun x => toFixed h 2 x.eth),
                BNB := xs.map (fun x => toFixed h 2 x.bnb) },
    timestamps := xs.map (fun x => x.time) }

/-- The sample number `i`: all three prices are `i` dollars and the label is `i`. -/
def sampleNo (i : Nat) : LiveSample :=
  { btc := .finite false i 0, eth := .finite false i 0, bnb := .finite false i 0,
    time := toString i }


/-- A historical response body with the single pair `[1704067200000, 1]`. -/
def oneEntryChart : JsVal :=
  chartData [(.num (.finite false 1704067200000 0), .finite false 1 0)]

/-- A historical response body whose `prices` array is empty. -/
def emptyChart : JsVal := chartData []

/-- The store after a historical fetch that received `oneEntryChart` for bitcoin and
`emptyChart` for the two other coins. -/
def skewedStore : Store :=
  { prices := { BTC := ["1.00"], ETH := [], BNB := [] }, timestamps := ["1/1/2024"] }

/-- The store after a historical fetch that received `oneEntryChart` for each coin. -/
def oneEntryStore : Store :=
  { prices := { BTC := ["1.00"], ETH := ["1.00"], BNB := ["1.00"] },
    timestamps := ["1/1/2024"] }

/-- Thirty pairs `[epochMillis, price]`, one per day. -/
def thirtyPairs : List (JsVal × JsNum) :=
  (List.range 30).map (fun i =>
    (JsVal.num (.finite false (1704067200000 + 86400000 * i) 0), JsNum.finite false (i + 1) 0))

/-- The double `m / 2^k`, with a significand `m` of 53 bits, is the double nearest to
the decimal `num / den`: it is less than half a unit in the last place away from it. -/
def IsNearestDouble (num den m k : Nat) : Prop :=
  2 ^ 52 ≤ m ∧ m < 2 ^ 53 ∧ 2 * Int.natAbs ((m : Int) * den - num * 2 ^ k) < den

instance (num den m k : Nat) : Decidable (IsNearestDouble num den m k) := by
  unfold IsNearestDouble; infer_instance

/-- The Number that the literal `50000.1` denotes. -/
def usd50000_1 : JsNum := .finite false 6871961417495347 (-37)

/-- The Number that the literal `3000` denotes. -/
def usd3000 : JsNum := .finite false 6597069766656000 (-41)

/-- The Number that the literal `400.005` denotes. -/
def usd400_005 : JsNum := .finite false 7036962378696622 (-44)

/-- The Number that the literal `1e21` denotes. -/
def usd1e21 : JsNum := .finite false 476837158203125 21

/-- A live response body in which `ethereum` is absent. -/
def noEthereum : JsVal :=
  .obj [("bitcoin", .obj [("usd", .num usd50000_1)]),
        ("binancecoin", .obj [("usd", .num usd400_005)])]

/-- The timer discipline of the mode controller: at most one interval is active, exactly
one in live mode and none in a historical mode, where no tick starts a fetch. -/
def TimerDiscipline (a : App) : Prop :=
  a.timers.length ≤ 1 ∧
  (a.mode = "live" → a.timers.length = 1) ∧
  (a.mode ≠ "live" → a.timers.length = 0) ∧
  (a.mode ≠ "live" → ∀ i, tick i a = a)

/-- In live mode the only active timer is the one the cleanup of the effect holds; in a
historical mode there is neither a timer nor a cleanup. -/
def OwnsTimer (a : App) : Prop :=
  (a.mode = "live" → ∃ i, a.timers = [i] ∧ a.cleanup = some i) ∧
  (a.mode ≠ "live" → a.timers = [] ∧ a.cleanup = none)
/-- A historical response body whose two entries carry `null` and a string where the
timestamp is expected: `[[null, 1], ["x", 2]]`. -/
def oddPairsChart : JsVal :=
  .obj [("prices", .arr [.arr [.null, .num (.finite false 1 0)],
                         .arr [.str "x", .num (.finite false 2 0)]])]

/-- A historical response body with the single pair `[1704067200000, 1e999]`: the
literal `1e999` parses to `Infinity`. -/
def infinityChart : JsVal :=
  chartData [(.num (.finite false 1704067200000 0), .inf false)]

/-- A historical response body with the single pair `[1704067200000, 1e21]`. -/
def hugeChart : JsVal :=
  chartData [(.num (.finite false 1704067200000 0), usd1e21)]

/-- A historical response body whose entry carries, where the timestamp is expected, an
object with own properties `toString` and `valueOf`: `new Date` throws on it. -/
def throwingDateChart : JsVal :=
  .obj [("prices", .arr [.arr [.obj [("toString", .num (.finite false 1 0)),
                                      ("valueOf", .num (.finite false 1 0))],
                               .num (.finite false 5 0)]])]

/-- The characters `cs` without a leading minus sign. -/
def dropSign (cs : List Char) : List Char :=
  match cs with
  | '-' :: r => r
  | r => r

/-- Whether `s` is a decimal string with exactly two fraction digits: an optional minus
sign, one digit or more, a point, two digits. -/
def isTwoDecimals (s : String) : Bool :=
  match (dropSign s.data).reverse with
  | d2 :: d1 :: '.' :: int => d1.isDigit && d2.isDigit && !int.isEmpty && int.all Char.isDigit
  | _ => false

/-! ## The sliding window -/

theorem slice_neg_nine {α : Type} (xs : List α) : slice xs (-9) = xs.drop (xs.length - 9) := by
  unfold slice
  simp only [show ((-9 : Int) < 0) from by decide, if_true]
  congr 1
  omega

theorem length_slice_neg_nine {α : Type} (xs : List α) :
    (slice xs (-9)).length = min xs.length 9 := by
  rw [slice_neg_nine, List.length_drop]; omega

theorem liveMerge_eq_specSuffix {α : Type} (seq : List α) (x : α) :
    slice seq (-9) ++ [x] = specSuffix 10 (seq ++ [x]) := by
  rw [slice_neg_nine]
  unfold specSuffix
  have h : (seq ++ [x]).length - 10 = seq.length - 9 := by
    simp only [List.length_append, List.length_singleton]; omega
  rw [h, List.drop_append_of_le_length (by omega)]

theorem specSuffix_length {α : Type} (n : Nat) (l : List α) :
    (specSuffix n l).length = min l.length n := by
  unfold specSuffix; rw [List.length_drop]; omega

theorem specSuffix_append {α : Type} (n : Nat) (l r : List α) :
    specSuffix n (specSuffix n l ++ r) = specSuffix n (l ++ r) := by
  unfold specSuffix
  generalize hk : l.length - n = k
  have hlen : (l.take k).length = k := by
    rw [List.length_take]; omega
  have hd : (l.drop k).length = l.length - k := List.length_drop _ _
  have e1 : (l ++ r).length - n = (l.take k).length + ((l.drop k ++ r).length - n) := by
    simp only [List.length_append, hlen, hd]; omega
  have e2 : l ++ r = l.take k ++ (l.drop k ++ r) := by
    rw [← List.append_assoc, List.take_append_drop]
  rw [e1]
  conv_rhs => rw [e2]
  rw [List.drop_append]

theorem specSuffix_append_of_le {α : Type} (n : Nat) (l r : List α) (hr : n ≤ r.length) :
    specSuffix n (l ++ r) = r.drop (r.length - n) := by
  unfold specSuffix
  have e : (l ++ r).length - n = l.length + (r.length - n) := by
    simp only [List.length_append]; omega
  rw [e, List.drop_append]

/-! ## The live fetch -/

theorem render_live (h : Host) (s : Store) (data : JsVal) (time : String) :
    render s (fetchLivePrices h (.resolved data) time) =
      match livePricesUpdater h data s.prices with
      | .error err => .error err
      | .ok p => .ok { prices := p, timestamps := slice s.timestamps (-9) ++ [time] } := by
  simp only [fetchLivePrices, render, applySetState, liveTimestampsUpdater]
  cases livePricesUpdater h data s.prices <;> rfl

theorem livePricesUpdater_ok (h : Host) (data : JsVal) (prev p : Prices)
    (hp : livePricesUpdater h data prev = .ok p) :
    ∃ b e n, usdFixed h data "bitcoin" = .ok b ∧ usdFixed h data "ethereum" = .ok e ∧
      usdFixed h data "binancecoin" = .ok n ∧
      p = { BTC := slice prev.BTC (-9) ++ [b], ETH := slice prev.ETH (-9) ++ [e],
            BNB := slice prev.BNB (-9) ++ [n] } := by
  unfold livePricesUpdater at hp
  cases hb : usdFixed h data "bitcoin" with
  | error err => rw [hb] at hp; cases hp
  | ok b =>
    cases he : usdFixed h data "ethereum" with
    | error err => rw [hb, he] at hp; cases hp
    | ok e =>
      cases hn : usdFixed h data "binancecoin" with
      | error err => rw [hb, he, hn] at hp; cases hp
      | ok n =>
        rw [hb, he, hn] at hp
        exact ⟨b, e, n, rfl, rfl, rfl, (Except.ok.inj hp).symm⟩

theorem livePricesUpdater_liveData (h : Host) (b e n : JsNum) (prev : Prices) :
    livePricesUpdater h (liveData b e n) prev =
      .ok { BTC := slice prev.BTC (-9) ++ [toFixed h 2 b],
            ETH := slice prev.ETH (-9) ++ [toFixed h 2 e],
            BNB := slice prev.BNB (-9) ++ [toFixed h 2 n] } := by
  rfl

theorem render_sample (h : Host) (s : Store) (x : LiveSample) :
    render s (fetchLivePrices h (Response.resolved (liveData x.btc x.eth x.bnb)) x.time) =
      .ok { prices := { BTC := specSuffix 10 (s.prices.BTC ++ [toFixed h 2 x.btc]),
                        ETH := specSuffix 10 (s.prices.ETH ++ [toFixed h 2 x.eth]),
                        BNB := specSuffix 10 (s.prices.BNB ++ [toFixed h 2 x.bnb]) },
            timestamps := specSuffix 10 (s.timestamps ++ [x.time]) } := by
  simp only [render_live, livePricesUpdater_liveData, liveMerge_eq_specSuffix]

theorem liveFetches_samples (h : Host) (xs : List LiveSample) (x : LiveSample) (s : Store) :
    liveFetches h s ((x :: xs).map sampleResponse) =
      .ok { prices :=
              { BTC := specSuffix 10
                  (s.prices.BTC ++ (x :: xs).map (fun x => toFixed h 2 x.btc)),
                ETH := specSuffix 10
                  (s.prices.ETH ++ (x :: xs).map (fun x => toFixed h 2 x.eth)),
                BNB := specSuffix 10
                  (s.prices.BNB ++ (x :: xs).map (fun x => toFixed h 2 x.bnb)) },
            timestamps := specSuffix 10 (s.timestamps ++ (x :: xs).map (fun x => x.time)) } := by
  induction xs generalizing s x with
  | nil =>
    simp only [List.map_cons, List.map_nil, liveFetches, sampleResponse, render_sample]
  | cons y ys ih =>
    rw [List.map_cons, liveFetches.eq_def]
    simp only [sampleResponse, render_sample]
    have ih1 := ih y
    simp only [sampleResponse] at ih1
    rw [ih1]
    simp only [specSuffix_append, List.map_cons, List.append_assoc, List.singleton_append]

/-- C2: the merge of a live update, `[...seq.slice(-9), x]`, is the last ten elements of
`seq ++ [x]` and has `min (len seq + 1) 10` elements, for every prior sequence; and a
live update that goes through applies it to `prices.BTC`, `prices.ETH`, `prices.BNB`
(each with the formatted price of its coin) and to `timestamps` (with the clock label). -/
theorem live_merge_is_sliding_window (h : Host) :
    (∀ (seq : List String) (x : String),
      slice seq (-9) ++ [x] = specSuffix 10 (seq ++ [x]) ∧
      (slice seq (-9) ++ [x]).length = min (seq.length + 1) 10) ∧
    (∀ (s s1 : Store) (data : JsVal) (time : String),
      render s (fetchLivePrices h (.resolved data) time) = .ok s1 →
      ∃ b e n, usdFixed h data "bitcoin" = .ok b ∧ usdFixed h data "ethereum" = .ok e ∧
        usdFixed h data "binancecoin" = .ok n ∧
        s1.prices.BTC = specSuffix 10 (s.prices.BTC ++ [b]) ∧
        s1.prices.ETH = specSuffix 10 (s.prices.ETH ++ [e]) ∧
        s1.prices.BNB = specSuffix 10 (s.prices.BNB ++ [n]) ∧
        s1.timestamps = specSuffix 10 (s.timestamps ++ [time])) := by
  refine ⟨fun seq x => ⟨liveMerge_eq_specSuffix seq x, ?_⟩, ?_⟩
  · rw [List.length_append, length_slice_neg_nine, List.length_singleton]; omega
  · intro s s1 data time hr
    rw [render_live] at hr
    cases hp : livePricesUpdater h data s.prices with
    | error err => rw [hp] at hr; cases hr
    | ok p =>
      rw [hp] at hr
      obtain ⟨b, e, n, hb, he, hn, rfl⟩ := livePricesUpdater_ok h data s.prices p hp
      cases Except.ok.inj hr
      exact ⟨b, e, n, hb, he, hn, liveMerge_eq_specSuffix _ _, liveMerge_eq_specSuffix _ _,
        liveMerge_eq_specSuffix _ _, liveMerge_eq_specSuffix _ _⟩

/-- Witness of C2: the live update of the empty store with the sample number 7. -/
theorem live_merge_is_sliding_window_witness :
    render emptyStore (fetchLivePrices sampleHost (sampleResponse (sampleNo 7)).1 "7")
      = .ok (storeOfSamples sampleHost [sampleNo 7]) ∧
    ∃ b e n, usdFixed sampleHost (liveData (sampleNo 7).btc (sampleNo 7).eth (sampleNo 7).bnb)
          "bitcoin" = .ok b ∧
        usdFixed sampleHost (liveData (sampleNo 7).btc (sampleNo 7).eth (sampleNo 7).bnb)
          "ethereum" = .ok e ∧
        usdFixed sampleHost (liveData (sampleNo 7).btc (sampleNo 7).eth (sampleNo 7).bnb)
          "binancecoin" = .ok n ∧
        (storeOfSamples sampleHost [sampleNo 7]).prices.BTC
          = specSuffix 10 (emptyStore.prices.BTC ++ [b]) ∧
        (storeOfSamples sampleHost [sampleNo 7]).prices.ETH
          = specSuffix 10 (emptyStore.prices.ETH ++ [e]) ∧
        (storeOfSamples sampleHost [sampleNo 7]).prices.BNB
          = specSuffix 10 (emptyStore.prices.BNB ++ [n]) ∧
        (storeOfSamples sampleHost [sampleNo 7]).timestamps
          = specSuffix 10 (emptyStore.timestamps ++ ["7"]) :=
  ⟨by rfl, (live_merge_is_sliding_window sampleHost).2 emptyStore
    (storeOfSamples sampleHost [sampleNo 7])
    (liveData (sampleNo 7).btc (sampleNo 7).eth (sampleNo 7).bnb) "7" (by rfl)⟩

/-- C3: after `N ≥ 10` consecutive successful live appends of the samples `x_1 .. x_N`,
from any store, the four sequences are the last ten samples `x_(N-9) .. x_N` in arrival
order, ten entries each; and eleven appends to the empty store leave `x_2 .. x_11`. -/
theorem live_rolling_buffer (h : Host) :
    (∀ (s : Store) (xs : List LiveSample), 10 ≤ xs.length →
      liveFetches h s (xs.map sampleResponse)
        = .ok (storeOfSamples h (xs.drop (xs.length - 10))) ∧
      (storeOfSamples h (xs.drop (xs.length - 10))).prices.BTC.length = 10 ∧
      (storeOfSamples h (xs.drop (xs.length - 10))).prices.ETH.length = 10 ∧
      (storeOfSamples h (xs.drop (xs.length - 10))).prices.BNB.length = 10 ∧
      (storeOfSamples h (xs.drop (xs.length - 10))).timestamps.length = 10) ∧
    (∀ (x1 : LiveSample) (rest : List LiveSample), rest.length = 10 →
      liveFetches h emptyStore ((x1 :: rest).map sampleResponse)
        = .ok (storeOfSamples h rest)) := by
  have key : ∀ (s : Store) (xs : List LiveSample), 10 ≤ xs.length →
      liveFetches h s (xs.map sampleResponse)
        = .ok (storeOfSamples h (xs.drop (xs.length - 10))) := by
    intro s xs hN
    cases xs with
    | nil => simp at hN
    | cons x xs =>
      rw [liveFetches_samples]
      simp only [storeOfSamples, List.map_drop]
      rw [specSuffix_append_of_le _ _ _ (by simpa using hN),
        specSuffix_append_of_le _ _ _ (by simpa using hN),
        specSuffix_append_of_le _ _ _ (by simpa using hN),
        specSuffix_append_of_le _ _ _ (by simpa using hN)]
      simp only [List.length_map]
  refine ⟨fun s xs hN => ⟨key s xs hN, ?_, ?_, ?_, ?_⟩, ?_⟩
  · simp only [storeOfSamples, List.length_map, List.length_drop]; omega
  · simp only [storeOfSamples, List.length_map, List.length_drop]; omega
  · simp only [storeOfSamples, List.length_map, List.length_drop]; omega
  · simp only [storeOfSamples, List.length_map, List.length_drop]; omega
  · intro x1 rest hr
    rw [key emptyStore (x1 :: rest) (by simp [hr])]
    simp [hr]

/-- Witness of C3: the samples number 1 to 12 appended to a store of three entries, and
the samples number 1 to 11 appended to the empty store. -/
theorem live_rolling_buffer_witness :
    (10 ≤ ((List.range 12).map (fun i => sampleNo (i + 1))).length ∧
      liveFetches sampleHost (storeOfSamples sampleHost [sampleNo 0, sampleNo 0, sampleNo 0])
          (((List.range 12).map (fun i => sampleNo (i + 1))).map sampleResponse)
        = .ok (storeOfSamples sampleHost ((List.range 10).map (fun i => sampleNo (i + 3))))) ∧
    (((List.range 10).map (fun i => sampleNo (i + 2))).length = 10 ∧
      liveFetches sampleHost emptyStore
          ((sampleNo 1 :: (List.range 10).map (fun i => sampleNo (i + 2))).map sampleResponse)
        = .ok (storeOfSamples sampleHost ((List.range 10).map (fun i => sampleNo (i + 2))))) :=
  ⟨⟨by decide, ((live_rolling_buffer sampleHost).1
      (storeOfSamples sampleHost [sampleNo 0, sampleNo 0, sampleNo 0])
      ((List.range 12).map (fun i => sampleNo (i + 1))) (by decide)).1⟩,
   ⟨by decide, (live_rolling_buffer sampleHost).2 (sampleNo 1)
      ((List.range 10).map (fun i => sampleNo (i + 2))) (by decide)⟩⟩


/-! ## The historical fetch -/

theorem mapArray_length {β : Type} (f : JsVal → Except JsError β) (xs : List JsVal)
    (ys : List β) (hm : mapArray f xs = .ok ys) : ys.length = xs.length := by
  induction xs generalizing ys with
  | nil =>
    cases Except.ok.inj hm
    rfl
  | cons x xs ih =>
    unfold mapArray at hm
    cases hx : f x with
    | error err => rw [hx] at hm; cases hm
    | ok y =>
      cases hxs : mapArray f xs with
      | error err => rw [hx, hxs] at hm; cases hm
      | ok zs =>
        rw [hx, hxs] at hm
        cases Except.ok.inj hm
        rw [List.length_cons, List.length_cons, ih zs hxs]

theorem mapArray_ok_mem {β : Type} (f : JsVal → Except JsError β) (xs : List JsVal)
    (ys : List β) (hm : mapArray f xs = .ok ys) : ∀ x ∈ xs, ∃ y, f x = .ok y := by
  induction xs generalizing ys with
  | nil => intro x hx; cases hx
  | cons x xs ih =>
    unfold mapArray at hm
    cases hx : f x with
    | error err => rw [hx] at hm; cases hm
    | ok y =>
      cases hxs : mapArray f xs with
      | error err => rw [hx, hxs] at hm; cases hm
      | ok zs =>
        intro w hw
        rcases List.mem_cons.mp hw with rfl | hw
        · exact ⟨y, hx⟩
        · exact ih zs hxs w hw

theorem callMap_ok {β : Type} (v : JsVal) (f : JsVal → Except JsError β) (ys : List β)
    (hm : callMap v f = .ok ys) : ∃ xs, v = .arr xs ∧ mapArray f xs = .ok ys := by
  cases v with
  | arr xs => exact ⟨xs, rfl, hm⟩
  | undefined => cases hm
  | null => cases hm
  | bool b => cases hm
  | num x => cases hm
  | str s => cases hm
  | obj fields => cases hm

theorem chartPrices_ok (h : Host) (data : JsVal) (l : List String)
    (hc : chartPrices h data = .ok l) :
    ∃ entries, getProp data "prices" = .ok (.arr entries) ∧ l.length = entries.length ∧
      ∀ p ∈ entries, HasPrice p := by
  unfold chartPrices at hc
  cases hg : getProp data "prices" with
  | error err => rw [hg] at hc; cases hc
  | ok ps =>
    rw [hg] at hc
    obtain ⟨xs, rfl, hm⟩ := callMap_ok _ _ _ hc
    refine ⟨xs, rfl, mapArray_length _ _ _ hm, ?_⟩
    intro p hp
    obtain ⟨y, hy⟩ := mapArray_ok_mem _ _ _ hm p hp
    cases hi : getIndex p 1 with
    | error err => rw [hi] at hy; cases hy
    | ok x =>
      rw [hi] at hy
      cases x with
      | num v => exact ⟨v, hi⟩
      | undefined => cases hy
      | null => cases hy
      | bool b => cases hy
      | str s => cases hy
      | arr zs => cases hy
      | obj fields => cases hy

theorem chartLabels_ok (format : JsVal → String) (data : JsVal) (l : List String)
    (hc : chartLabels format data = .ok l) :
    ∃ entries, getProp data "prices" = .ok (.arr entries) ∧ l.length = entries.length := by
  unfold chartLabels at hc
  cases hg : getProp data "prices" with
  | error err => rw [hg] at hc; cases hc
  | ok ps =>
    rw [hg] at hc
    obtain ⟨xs, rfl, hm⟩ := callMap_ok _ _ _ hc
    exact ⟨xs, rfl, mapArray_length _ _ _ hm⟩

theorem historicalSeries_ok (h : Host) (days : String) (r0 r1 r2 : Response) (p : Prices)
    (l : List String) (hs : historicalSeries h days r0 r1 r2 = .ok (p, l)) :
    ∃ d0 d1 d2, r0 = .resolved d0 ∧ r1 = .resolved d1 ∧ r2 = .resolved d2 ∧
      chartPrices h d0 = .ok p.BTC ∧ chartPrices h d1 = .ok p.ETH ∧
      chartPrices h d2 = .ok p.BNB ∧
      (if days = "1" then chartLabels h.toLocaleTimeString d0
        else chartLabels h.toLocaleDateString d0) = .ok l := by
  cases r0 with
  | rejected => cases hs
  | resolved d0 =>
    cases r1 with
    | rejected => cases hs
    | resolved d1 =>
      cases r2 with
      | rejected => cases hs
      | resolved d2 =>
        simp only [historicalSeries] at hs
        cases h0 : chartPrices h d0 with
        | error err => rw [h0] at hs; cases hs
        | ok b =>
          cases h1 : chartPrices h d1 with
          | error err => rw [h0, h1] at hs; cases hs
          | ok e =>
            cases h2 : chartPrices h d2 with
            | error err => rw [h0, h1, h2] at hs; cases hs
            | ok n =>
              rw [h0, h1, h2] at hs
              simp only at hs
              cases hl : (if days = "1" then chartLabels h.toLocaleTimeString d0
                  else chartLabels h.toLocaleDateString d0) with
              | error err => rw [hl] at hs; cases hs
              | ok t =>
                rw [hl] at hs
                cases Except.ok.inj hs
                exact ⟨d0, d1, d2, rfl, rfl, rfl, h0, h1, h2, hl⟩

theorem render_historical (h : Host) (s : Store) (days : String) (r0 r1 r2 : Response) :
    render s (fetchHistoricalPrices h days r0 r1 r2) =
      match historicalSeries h days r0 r1 r2 with
      | .error _ => .ok s
      | .ok (p, l) => .ok { prices := p, timestamps := l } := by
  unfold fetchHistoricalPrices
  cases historicalSeries h days r0 r1 r2 with
  | error err => rfl
  | ok v => rfl

theorem fetchHistoricalPrices_ne_nil (h : Host) (days : String) (r0 r1 r2 : Response)
    (hq : fetchHistoricalPrices h days r0 r1 r2 ≠ []) :
    ∃ p l, historicalSeries h days r0 r1 r2 = .ok (p, l) := by
  unfold fetchHistoricalPrices at hq
  cases hs : historicalSeries h days r0 r1 r2 with
  | error err => rw [hs] at hq; exact absurd rfl hq
  | ok v => exact ⟨v.1, v.2, rfl⟩

theorem pricesLength_of_getProp (data : JsVal) (entries : List JsVal) (n : Nat)
    (hg : getProp data "prices" = .ok (.arr entries)) (hn : pricesLength data = some n) :
    entries.length = n := by
  unfold pricesLength at hn
  rw [hg] at hn
  exact Option.some.inj hn

theorem live_preserves_aligned (h : Host) (s s1 : Store) (data : JsVal) (time : String)
    (ha : Aligned s) (hr : render s (fetchLivePrices h (.resolved data) time) = .ok s1) :
    Aligned s1 := by
  rw [render_live] at hr
  cases hp : livePricesUpdater h data s.prices with
  | error err => rw [hp] at hr; cases hr
  | ok p =>
    rw [hp] at hr
    obtain ⟨b, e, n, -, -, -, rfl⟩ := livePricesUpdater_ok h data s.prices p hp
    cases Except.ok.inj hr
    obtain ⟨h1, h2, h3⟩ := ha
    simp only [Aligned, List.length_append, length_slice_neg_nine, List.length_singleton]
    omega

/-! ## The length invariant -/

/-- C1, as stated, fails: a historical fetch that receives one pair for bitcoin and no
pair for the two other coins is applied, and leaves one label and one BTC sample next to
empty ETH and BNB sequences. -/
theorem store_alignment_counterexample :
    Reachable sampleHost skewedStore ∧ ¬ Aligned skewedStore := by
  refine ⟨Reachable.next emptyStore skewedStore Reachable.init
    (Update.historical emptyStore skewedStore "30" (.resolved oneEntryChart)
      (.resolved emptyChart) (.resolved emptyChart) ?_ rfl), by decide⟩
  intro hq
  have hl := congrArg List.length hq
  exact absurd hl (by decide)

/-- C1, amended: from the empty store, after every sequence of successful live appends
and of historical replacements whose three `prices` arrays have one length, the labels
and the three sample sequences have the same length. -/
theorem store_alignment_equal_lengths (h : Host) (s : Store) (hr : ReachableEq h s) :
    Aligned s := by
  induction hr with
  | init => exact ⟨rfl, rfl, rfl⟩
  | next s s1 _ hu ih =>
    cases hu with
    | live data time hrender => exact live_preserves_aligned h s s1 data time ih hrender
    | historical days d0 d1 d2 n h0 h1 h2 hq hrender =>
      obtain ⟨p, l, hs⟩ := fetchHistoricalPrices_ne_nil h days _ _ _ hq
      rw [render_historical, hs] at hrender
      cases Except.ok.inj hrender
      obtain ⟨e0, e1, e2, hr0, hr1, hr2, hc0, hc1, hc2, hl⟩ :=
        historicalSeries_ok h days _ _ _ p l hs
      cases hr0
      cases hr1
      cases hr2
      obtain ⟨x0, g0, l0, -⟩ := chartPrices_ok h _ _ hc0
      obtain ⟨x1, g1, l1, -⟩ := chartPrices_ok h _ _ hc1
      obtain ⟨x2, g2, l2, -⟩ := chartPrices_ok h _ _ hc2
      have n0 := pricesLength_of_getProp _ _ _ g0 h0
      have n1 := pricesLength_of_getProp _ _ _ g1 h1
      have n2 := pricesLength_of_getProp _ _ _ g2 h2
      have hlab : l.length = n := by
        by_cases hd : days = "1"
        · rw [if_pos hd] at hl
          obtain ⟨y, gy, ly⟩ := chartLabels_ok _ _ _ hl
          rw [ly]
          exact pricesLength_of_getProp _ _ _ gy h0
        · rw [if_neg hd] at hl
          obtain ⟨y, gy, ly⟩ := chartLabels_ok _ _ _ hl
          rw [ly]
          exact pricesLength_of_getProp _ _ _ gy h0
      refine ⟨?_, ?_, ?_⟩
      · show l.length = p.BTC.length
        omega
      · show p.BTC.length = p.ETH.length
        omega
      · show p.ETH.length = p.BNB.length
        omega

/-- Witness of the amended C1: a live append followed by a historical replacement with
one pair for each coin. -/
theorem store_alignment_equal_lengths_witness :
    ReachableEq sampleHost oneEntryStore ∧ Aligned oneEntryStore :=
  ⟨ReachableEq.next _ oneEntryStore
      (ReachableEq.next emptyStore (storeOfSamples sampleHost [sampleNo 7]) ReachableEq.init
        (UpdateEq.live _ _ (liveData (sampleNo 7).btc (sampleNo 7).eth (sampleNo 7).bnb) "7"
          rfl))
      (UpdateEq.historical _ _ "30" oneEntryChart oneEntryChart oneEntryChart 1 rfl rfl rfl
        (fun hq => absurd (congrArg List.length hq) (by decide)) rfl),
   store_alignment_equal_lengths sampleHost oneEntryStore
    (ReachableEq.next _ oneEntryStore
      (ReachableEq.next emptyStore (storeOfSamples sampleHost [sampleNo 7]) ReachableEq.init
        (UpdateEq.live _ _ (liveData (sampleNo 7).btc (sampleNo 7).eth (sampleNo 7).bnb) "7"
          rfl))
      (UpdateEq.historical _ _ "30" oneEntryChart oneEntryChart oneEntryChart 1 rfl rfl rfl
        (fun hq => absurd (congrArg List.length hq) (by decide)) rfl))⟩

theorem mapArray_chartData {β : Type} (g : JsVal → JsNum → β)
    (f : JsVal → Except JsError β)
    (hf : ∀ t x, f (JsVal.arr [t, JsVal.num x]) = .ok (g t x))
    (pairs : List (JsVal × JsNum)) :
    mapArray f (pairs.map (fun p => JsVal.arr [p.1, JsVal.num p.2]))
      = .ok (pairs.map (fun p => g p.1 p.2)) := by
  induction pairs with
  | nil => rfl
  | cons p ps ih =>
    rw [List.map_cons, mapArray, hf, ih]
    rfl

theorem chartPrices_chartData (h : Host) (pairs : List (JsVal × JsNum)) :
    chartPrices h (chartData pairs) = .ok (pairs.map (fun p => toFixed h 2 p.2)) := by
  show mapArray _ _ = _
  exact mapArray_chartData (fun _ x => toFixed h 2 x) _ (fun _ _ => rfl) pairs

theorem chartLabels_chartData (format : JsVal → String) (pairs : List (JsVal × JsNum))
    (hd : ∀ p ∈ pairs, toPrimitiveThrows p.1 = false) :
    chartLabels format (chartData pairs) = .ok (pairs.map (fun p => format p.1)) := by
  show mapArray _ _ = _
  induction pairs with
  | nil => rfl
  | cons p ps ih =>
    have hp : formatDate format p.1 = .ok (format p.1) := by
      unfold formatDate
      rw [hd p (List.mem_cons_self _ _)]
      rfl
    have hstep : (match getIndex (JsVal.arr [p.1, JsVal.num p.2]) 0 with
        | Except.error err => Except.error err
        | Except.ok t => formatDate format t) = Except.ok (format p.1) := hp
    rw [List.map_cons, mapArray, hstep,
      ih (fun q hq => hd q (List.mem_cons_of_mem _ hq))]
    rfl

theorem chartLabels_no_throw (format : JsVal → String) (data : JsVal) (l : List String)
    (hc : chartLabels format data = .ok l) : ¬ LabelThrows data := by
  rintro ⟨entries, p, t, hg, hp, hi, ht⟩
  unfold chartLabels at hc
  rw [hg] at hc
  obtain ⟨y, hy⟩ := mapArray_ok_mem _ _ _ hc p hp
  simp only [hi, formatDate, ht, if_true] at hy
  cases hy

/-! ## `toFixed(2)` -/

theorem decDigits_fuel (f1 : Nat) : ∀ (f2 n : Nat), n < f1 → n < f2 →
    decDigits f1 n = decDigits f2 n := by
  induction f1 with
  | zero => intro f2 n h1; omega
  | succ f1 ih =>
    intro f2 n h1 h2
    cases f2 with
    | zero => omega
    | succ f2 =>
      unfold decDigits
      by_cases hn : n < 10
      · rw [if_pos hn, if_pos hn]
      · rw [if_neg hn, if_neg hn, ih f2 (n / 10) (by omega) (by omega)]

theorem decimal_lt_ten (n : Nat) (hn : n < 10) : decimal n = [Nat.digitChar n] := by
  unfold decimal decDigits
  rw [if_pos hn]

theorem decimal_ge_ten (n : Nat) (hn : 10 ≤ n) :
    decimal n = decimal (n / 10) ++ [Nat.digitChar (n % 10)] := by
  unfold decimal
  conv_lhs => unfold decDigits
  rw [if_neg (by omega), decDigits_fuel n (n / 10 + 1) (n / 10) (by omega) (by omega)]

theorem decimal_length_pos (n : Nat) : 1 ≤ (decimal n).length := by
  by_cases hn : n < 10
  · rw [decimal_lt_ten n hn]; simp
  · rw [decimal_ge_ten n (by omega)]; simp

theorem fixedDigits_two (n : Nat) :
    fixedDigits 2 n
      = decimal (n / 100) ++ ['.', Nat.digitChar (n / 10 % 10), Nat.digitChar (n % 10)] := by
  unfold fixedDigits
  by_cases h1 : n < 10
  · have e0 : n / 100 = 0 := by omega
    have e1 : n / 10 % 10 = 0 := by omega
    rw [decimal_lt_ten n h1, e0, e1, decimal_lt_ten 0 (by omega), Nat.mod_eq_of_lt h1]
    rfl
  · by_cases h2 : n < 100
    · have e0 : n / 100 = 0 := by omega
      have e1 : n / 10 % 10 = n / 10 := by omega
      rw [decimal_ge_ten n (by omega), decimal_lt_ten (n / 10) (by omega), e0, e1,
        decimal_lt_ten 0 (by omega)]
      rfl
    · have e0 : n / 10 / 10 = n / 100 := by omega
      have hlen := decimal_length_pos (n / 100)
      rw [decimal_ge_ten n (by omega), decimal_ge_ten (n / 10) (by omega), e0]
      generalize decimal (n / 100) = ds at hlen
      have e2 : 2 + 1 - (ds ++ [Nat.digitChar (n / 10 % 10)]
          ++ [Nat.digitChar (n % 10)]).length = 0 := by
        simp only [List.length_append, List.length_singleton]; omega
      have e3 : (ds ++ [Nat.digitChar (n / 10 % 10)] ++ [Nat.digitChar (n % 10)]).length - 2
          = ds.length := by
        simp only [List.length_append, List.length_singleton]; omega
      simp only [e2, List.replicate_zero, List.nil_append, e3,
        if_neg (show ¬ (2 = 0) from by decide)]
      rw [List.append_assoc, List.take_left, List.drop_left]
      rfl

theorem digitChar_isDigit (n : Nat) (hn : n < 10) : (Nat.digitChar n).isDigit = true := by
  interval_cases n <;> rfl

theorem decDigits_all_digits (fuel : Nat) : ∀ n, (decDigits fuel n).all Char.isDigit = true := by
  induction fuel with
  | zero => intro n; rfl
  | succ fuel ih =>
    intro n
    unfold decDigits
    by_cases hn : n < 10
    · rw [if_pos hn]
      simp [digitChar_isDigit n hn]
    · rw [if_neg hn, List.all_append, ih]
      simp [digitChar_isDigit (n % 10) (Nat.mod_lt _ (by decide))]

theorem dropSign_of_digit (c : Char) (cs : List Char) (hc : c.isDigit = true) :
    dropSign (c :: cs) = c :: cs := by
  have hne : c ≠ '-' := by
    intro he
    subst he
    exact absurd hc (by decide)
  unfold dropSign
  split
  · rename_i r heq
    exact absurd (List.cons.inj heq).1 hne
  · rfl

theorem isTwoDecimals_of_digits (ds : List Char) (a b : Char) (neg : Bool)
    (hds : ds.all Char.isDigit = true) (hne : ds ≠ []) (ha : a.isDigit = true)
    (hb : b.isDigit = true) :
    isTwoDecimals (String.mk ((if neg = true then ['-'] else []) ++ (ds ++ ['.', a, b])))
      = true := by
  have hrev : (ds ++ ['.', a, b]).reverse = b :: a :: '.' :: ds.reverse := by simp
  have hne2 : ds.reverse.isEmpty = false := by
    cases ds with
    | nil => exact absurd rfl hne
    | cons c cs => simp
  have hdrop : dropSign ((if neg = true then ['-'] else []) ++ (ds ++ ['.', a, b]))
      = ds ++ ['.', a, b] := by
    cases neg with
    | true => rfl
    | false =>
      cases ds with
      | nil => exact absurd rfl hne
      | cons c cs =>
        have hc : c.isDigit = true := by
          simp only [List.all_cons, Bool.and_eq_true] at hds
          exact hds.1
        exact dropSign_of_digit c _ hc
  unfold isTwoDecimals
  simp only [hdrop, hrev]
  simp [ha, hb, hne2, List.all_reverse, hds]

theorem toFixed_two_form (h : Host) (neg : Bool) (m : Nat) (e : Int)
    (hbig : atLeast1e21 m e = false) :
    toFixed h 2 (.finite neg m e)
      = String.mk ((if (neg && m != 0) = true then ['-'] else []) ++
          (decimal (roundScaled 2 m e / 100) ++
            ['.', Nat.digitChar (roundScaled 2 m e / 10 % 10),
              Nat.digitChar (roundScaled 2 m e % 10)])) := by
  simp only [toFixed, hbig, fixedDigits_two]
  rfl

theorem toFixed_two_isTwoDecimals (h : Host) (neg : Bool) (m : Nat) (e : Int)
    (hbig : atLeast1e21 m e = false) :
    isTwoDecimals (toFixed h 2 (.finite neg m e)) = true := by
  rw [toFixed_two_form h neg m e hbig]
  refine isTwoDecimals_of_digits _ _ _ _ (decDigits_all_digits _ _) ?_
    (digitChar_isDigit _ (Nat.mod_lt _ (by decide)))
    (digitChar_isDigit _ (Nat.mod_lt _ (by decide)))
  intro hnil
  have hpos := decimal_length_pos (roundScaled 2 m e / 100)
  rw [hnil] at hpos
  exact absurd hpos (by decide)

theorem roundScaled_nearest (m : Nat) (e : Int) :
    (roundScaled 2 m e : ℚ) - 1 / 2 ≤ 100 * (m : ℚ) * (2 : ℚ) ^ e ∧
    100 * (m : ℚ) * (2 : ℚ) ^ e < (roundScaled 2 m e : ℚ) + 1 / 2 := by
  unfold roundScaled
  by_cases he : 0 ≤ e
  · rw [if_pos he]
    obtain ⟨n, rfl⟩ := Int.eq_ofNat_of_zero_le he
    simp only [Int.toNat_ofNat, zpow_natCast]
    push_cast
    constructor <;> nlinarith [show (0 : ℚ) ≤ (m : ℚ) * 2 ^ n from by positivity]
  · rw [if_neg he]
    obtain ⟨n, hn⟩ : ∃ n : Nat, e = -(n : Int) := ⟨(-e).toNat, by omega⟩
    subst hn
    simp only [neg_neg, Int.toNat_ofNat, zpow_neg, zpow_natCast]
    set k := (2 * (m * 10 ^ 2) + 2 ^ n) / (2 * 2 ^ n) with hk
    have hpos : 0 < 2 * 2 ^ n := by positivity
    have h1 : 2 * 2 ^ n * k ≤ 2 * (m * 10 ^ 2) + 2 ^ n := Nat.mul_div_le _ _
    have h2 : 2 * (m * 10 ^ 2) + 2 ^ n < 2 * 2 ^ n * (k + 1) := by
      have := Nat.lt_mul_div_succ (2 * (m * 10 ^ 2) + 2 ^ n) hpos
      exact this
    have q1 : (2 : ℚ) * 2 ^ n * k ≤ 2 * (m * 10 ^ 2) + 2 ^ n := by exact_mod_cast h1
    have q2 : (2 : ℚ) * (m * 10 ^ 2) + 2 ^ n < 2 * 2 ^ n * (k + 1) := by exact_mod_cast h2
    have hD : (0 : ℚ) < 2 ^ n := by positivity
    generalize (2 : ℚ) ^ n = D at q1 q2 hD
    have e1 : 100 * (m : ℚ) * D⁻¹ = (100 * m) / D := by rw [div_eq_mul_inv]
    rw [e1]
    constructor
    · rw [le_div_iff₀ hD]; nlinarith
    · rw [div_lt_iff₀ hD]; nlinarith

/-! ## The historical replacement -/

/-- C5, as stated, fails: a historical response whose price is `Infinity` (the literal
`1e999`) or `1e21` is applied, and the stored sample is `"Infinity"`, or the exponent
form the host gives, not a decimal string with two fraction digits. -/
theorem historical_replacement_counterexample :
    (render oneEntryStore (fetchHistoricalPrices sampleHost "30" (.resolved infinityChart)
        (.resolved infinityChart) (.resolved infinityChart))
      = .ok { prices := { BTC := ["Infinity"], ETH := ["Infinity"], BNB := ["Infinity"] },
              timestamps := ["1/1/2024"] } ∧
      isTwoDecimals "Infinity" = false) ∧
    (render oneEntryStore (fetchHistoricalPrices sampleHost "30" (.resolved hugeChart)
        (.resolved hugeChart) (.resolved hugeChart))
      = .ok { prices := { BTC := [sampleHost.numberToString usd1e21],
                          ETH := [sampleHost.numberToString usd1e21],
                          BNB := [sampleHost.numberToString usd1e21] },
              timestamps := ["1/1/2024"] } ∧
      isTwoDecimals (sampleHost.numberToString usd1e21) = false) :=
  ⟨⟨by rfl, by decide⟩, ⟨by rfl, by decide⟩⟩

/-- C5, amended: a historical fetch for the window `"30"`, `"180"` or `"365"` whose three
responses carry the pairs `btc`, `eth`, `bnb`, with timestamps in the first response on
which `new Date` does not throw, replaces the store, whatever it held, by `toFixed(2)`
of every price of the first, second and third response, in order and without a cap, and
by the calendar-date rendering of every timestamp of the first response; with thirty
pairs each, the four sequences have thirty entries. The store after any historical fetch
that is applied does not depend on the store before. And `toFixed(2)` of a finite price
below `10^21` in magnitude is the sign, the decimal digits of the integer part, a point
and exactly two fraction digits. -/
theorem historical_full_replacement (h : Host) :
    (∀ (s : Store) (days : String) (btc eth bnb : List (JsVal × JsNum)),
      days ∈ ["30", "180", "365"] →
      (∀ p ∈ btc, toPrimitiveThrows p.1 = false) →
      render s (fetchHistoricalPrices h days (.resolved (chartData btc))
          (.resolved (chartData eth)) (.resolved (chartData bnb)))
        = .ok { prices := { BTC := btc.map (fun p => toFixed h 2 p.2),
                            ETH := eth.map (fun p => toFixed h 2 p.2),
                            BNB := bnb.map (fun p => toFixed h 2 p.2) },
                timestamps := btc.map (fun p => h.toLocaleDateString p.1) } ∧
      (btc.length = 30 → eth.length = 30 → bnb.length = 30 →
        (btc.map (fun p => toFixed h 2 p.2)).length = 30 ∧
        (eth.map (fun p => toFixed h 2 p.2)).length = 30 ∧
        (bnb.map (fun p => toFixed h 2 p.2)).length = 30 ∧
        (btc.map (fun p => h.toLocaleDateString p.1)).length = 30)) ∧
    (∀ (s s1 : Store) (days : String) (r0 r1 r2 : Response),
      fetchHistoricalPrices h days r0 r1 r2 ≠ [] →
      render s (fetchHistoricalPrices h days r0 r1 r2)
        = render s1 (fetchHistoricalPrices h days r0 r1 r2)) ∧
    (∀ (neg : Bool) (m : Nat) (e : Int), atLeast1e21 m e = false →
      toFixed h 2 (.finite neg m e)
        = String.mk ((if (neg && m != 0) = true then ['-'] else []) ++
            (decimal (roundScaled 2 m e / 100) ++
              ['.', Nat.digitChar (roundScaled 2 m e / 10 % 10),
                Nat.digitChar (roundScaled 2 m e % 10)])) ∧
      isTwoDecimals (toFixed h 2 (.finite neg m e)) = true) := by
  refine ⟨?_, ?_, ?_⟩
  · intro s days btc eth bnb hd hdate
    have h1 : days ≠ "1" := by
      intro he
      subst he
      revert hd
      decide
    refine ⟨?_, fun h0 h1 h2 => ?_⟩
    · rw [render_historical]
      simp only [historicalSeries, chartPrices_chartData,
        chartLabels_chartData _ btc hdate, if_neg h1]
    · simp only [List.length_map]
      exact ⟨h0, h1, h2, h0⟩
  · intro s s1 days r0 r1 r2 hq
    obtain ⟨p, l, hs⟩ := fetchHistoricalPrices_ne_nil h days r0 r1 r2 hq
    rw [render_historical, render_historical, hs]
  · intro neg m e hbig
    exact ⟨toFixed_two_form h neg m e hbig, toFixed_two_isTwoDecimals h neg m e hbig⟩

/-- Witness of the amended C5: thirty pairs for each coin, applied to a store that held
one entry; and the price `400.005`. -/
theorem historical_full_replacement_witness :
    ("30" ∈ ["30", "180", "365"] ∧ (∀ p ∈ thirtyPairs, toPrimitiveThrows p.1 = false) ∧
      thirtyPairs.length = 30) ∧
    (render skewedStore (fetchHistoricalPrices sampleHost "30" (.resolved (chartData thirtyPairs))
          (.resolved (chartData thirtyPairs)) (.resolved (chartData thirtyPairs)))
        = .ok { prices := { BTC := thirtyPairs.map (fun p => toFixed sampleHost 2 p.2),
                            ETH := thirtyPairs.map (fun p => toFixed sampleHost 2 p.2),
                            BNB := thirtyPairs.map (fun p => toFixed sampleHost 2 p.2) },
                timestamps := thirtyPairs.map (fun p => sampleHost.toLocaleDateString p.1) }) ∧
    ((thirtyPairs.map (fun p => toFixed sampleHost 2 p.2)).length = 30 ∧
      (thirtyPairs.map (fun p => toFixed sampleHost 2 p.2)).length = 30 ∧
      (thirtyPairs.map (fun p => toFixed sampleHost 2 p.2)).length = 30 ∧
      (thirtyPairs.map (fun p => sampleHost.toLocaleDateString p.1)).length = 30) ∧
    render skewedStore (fetchHistoricalPrices sampleHost "30" (.resolved oneEntryChart)
        (.resolved oneEntryChart) (.resolved oneEntryChart))
      = render emptyStore (fetchHistoricalPrices sampleHost "30" (.resolved oneEntryChart)
        (.resolved oneEntryChart) (.resolved oneEntryChart)) ∧
    (atLeast1e21 7036962378696622 (-44) = false ∧
      toFixed sampleHost 2 usd400_005 = "400.00" ∧
      isTwoDecimals (toFixed sampleHost 2 usd400_005) = true) :=
  ⟨⟨by decide, by decide, by decide⟩,
   ((historical_full_replacement sampleHost).1 skewedStore "30" thirtyPairs thirtyPairs
      thirtyPairs (by decide) (by decide)).1,
   ((historical_full_replacement sampleHost).1 skewedStore "30" thirtyPairs thirtyPairs
      thirtyPairs (by decide) (by decide)).2 (by decide) (by decide) (by decide),
   (historical_full_replacement sampleHost).2.1 skewedStore emptyStore "30"
      (.resolved oneEntryChart) (.resolved oneEntryChart) (.resolved oneEntryChart)
      (fun hq => absurd (congrArg List.length hq) (by decide)),
   ⟨by decide,
    ((historical_full_replacement sampleHost).2.2 false 7036962378696622 (-44)
      (by decide)).1.trans (by decide),
    ((historical_full_replacement sampleHost).2.2 false 7036962378696622 (-44)
      (by decide)).2⟩⟩

/-- C7, as stated, fails: a first response whose entries carry `null` and a string where
the timestamp is expected has no `prices` array of pairs `[epochMillis, number]`, and
yet the fetch is applied and replaces the store. -/
theorem historical_failure_counterexample :
    FailsAsStated (.resolved oddPairsChart) ∧
    render oneEntryStore (fetchHistoricalPrices sampleHost "365" (.resolved oddPairsChart)
        (.resolved oneEntryChart) (.resolved oneEntryChart))
      = .ok { prices := { BTC := ["1.00", "2.00"], ETH := ["1.00"], BNB := ["1.00"] },
              timestamps := [sampleHost.toLocaleDateString .null,
                             sampleHost.toLocaleDateString (.str "x")] } ∧
    render oneEntryStore (fetchHistoricalPrices sampleHost "365" (.resolved oddPairsChart)
        (.resolved oneEntryChart) (.resolved oneEntryChart))
      ≠ .ok oneEntryStore := by
  have hrun : render oneEntryStore (fetchHistoricalPrices sampleHost "365"
        (.resolved oddPairsChart) (.resolved oneEntryChart) (.resolved oneEntryChart))
      = .ok { prices := { BTC := ["1.00", "2.00"], ETH := ["1.00"], BNB := ["1.00"] },
              timestamps := [sampleHost.toLocaleDateString .null,
                             sampleHost.toLocaleDateString (.str "x")] } := by rfl
  refine ⟨?_, hrun, ?_⟩
  · rintro ⟨entries, hg, hall⟩
    have he : getProp oddPairsChart "prices"
        = .ok (.arr [.arr [.null, .num (.finite false 1 0)],
                     .arr [.str "x", .num (.finite false 2 0)]]) := rfl
    rw [he] at hg
    cases hg
    obtain ⟨t, x, hp⟩ := hall _ (List.mem_cons_self _ _)
    cases hp
  · rw [hrun]
    intro hEq
    have hlen := congrArg (fun st => st.prices.BTC.length) (Except.ok.inj hEq)
    revert hlen
    decide

/-- C7, amended: when one of the three historical requests is rejected, or its body has
no `prices` array whose every entry carries a Number at index `1`, or the first body has
an entry whose index `0` holds a value on which `new Date` throws, the routine calls
neither setter and the store after the re-render is the store before. An entry whose
timestamp is not a Number is not a failure for the code. -/
theorem historical_fails_atomically (h : Host) (s : Store) (days : String)
    (r0 r1 r2 : Response)
    (hf : Fails r0 ∨ Fails r1 ∨ Fails r2 ∨ ∃ d0, r0 = .resolved d0 ∧ LabelThrows d0) :
    fetchHistoricalPrices h days r0 r1 r2 = [] ∧
    render s (fetchHistoricalPrices h days r0 r1 r2) = .ok s := by
  have hnil : fetchHistoricalPrices h days r0 r1 r2 = [] := by
    by_contra hq
    obtain ⟨p, l, hs⟩ := fetchHistoricalPrices_ne_nil h days r0 r1 r2 hq
    obtain ⟨d0, d1, d2, rfl, rfl, rfl, hc0, hc1, hc2, hl⟩ :=
      historicalSeries_ok h days _ _ _ p l hs
    obtain ⟨x0, g0, -, u0⟩ := chartPrices_ok h _ _ hc0
    obtain ⟨x1, g1, -, u1⟩ := chartPrices_ok h _ _ hc1
    obtain ⟨x2, g2, -, u2⟩ := chartPrices_ok h _ _ hc2
    rcases hf with hf | hf | hf | ⟨d, hd, hthrow⟩
    · exact hf ⟨x0, g0, u0⟩
    · exact hf ⟨x1, g1, u1⟩
    · exact hf ⟨x2, g2, u2⟩
    · cases hd
      by_cases hday : days = "1"
      · rw [if_pos hday] at hl
        exact chartLabels_no_throw _ _ _ hl hthrow
      · rw [if_neg hday] at hl
        exact chartLabels_no_throw _ _ _ hl hthrow
  exact ⟨hnil, by rw [hnil]; rfl⟩

/-- Witness of the amended C7: the ethereum request is rejected; the binancecoin
response has a body without `prices`; the bitcoin response carries a timestamp on which
`new Date` throws. -/
theorem historical_fails_atomically_witness :
    (Fails Response.rejected ∧
      fetchHistoricalPrices sampleHost "365" (.resolved oneEntryChart) .rejected
        (.resolved oneEntryChart) = [] ∧
      render oneEntryStore (fetchHistoricalPrices sampleHost "365" (.resolved oneEntryChart)
        .rejected (.resolved oneEntryChart)) = .ok oneEntryStore) ∧
    (Fails (Response.resolved (JsVal.obj [])) ∧
      fetchHistoricalPrices sampleHost "365" (.resolved oneEntryChart)
        (.resolved oneEntryChart) (.resolved (JsVal.obj [])) = [] ∧
      render oneEntryStore (fetchHistoricalPrices sampleHost "365" (.resolved oneEntryChart)
        (.resolved oneEntryChart) (.resolved (JsVal.obj []))) = .ok oneEntryStore) ∧
    (LabelThrows throwingDateChart ∧
      fetchHistoricalPrices sampleHost "365" (.resolved throwingDateChart)
        (.resolved oneEntryChart) (.resolved oneEntryChart) = [] ∧
      render oneEntryStore (fetchHistoricalPrices sampleHost "365"
        (.resolved throwingDateChart) (.resolved oneEntryChart) (.resolved oneEntryChart))
        = .ok oneEntryStore) :=
  have hbody : Fails (Response.resolved (JsVal.obj [])) := fun hu => by
    obtain ⟨entries, hg, -⟩ := hu
    cases hg
  have hdate : LabelThrows throwingDateChart :=
    ⟨_, _, _, rfl, List.mem_cons_self _ _, rfl, rfl⟩
  ⟨⟨trivial, historical_fails_atomically sampleHost oneEntryStore "365"
      (.resolved oneEntryChart) .rejected (.resolved oneEntryChart) (Or.inr (Or.inl trivial))⟩,
   ⟨hbody, historical_fails_atomically sampleHost oneEntryStore "365"
      (.resolved oneEntryChart) (.resolved oneEntryChart) (.resolved (JsVal.obj []))
      (Or.inr (Or.inr (Or.inl hbody)))⟩,
   ⟨hdate, historical_fails_atomically sampleHost oneEntryStore "365"
      (.resolved throwingDateChart) (.resolved oneEntryChart) (.resolved oneEntryChart)
      (Or.inr (Or.inr (Or.inr ⟨throwingDateChart, rfl, hdate⟩)))⟩⟩

/-! ## The live normalization -/

/-- C4, as stated, fails on its own example: the literal `400.005` denotes a double just
below `400.005`, which `toFixed(2)` renders as `"400.00"`, not `"400.01"`; and a price
from `10^21` on is not rendered with two fraction digits at all. -/
theorem live_normalization_counterexample :
    (IsNearestDouble 500001 10 6871961417495347 37 ∧
      IsNearestDouble 3000 1 6597069766656000 41 ∧
      IsNearestDouble 400005 1000 7036962378696622 44) ∧
    render emptyStore (fetchLivePrices sampleHost
        (.resolved (liveData usd50000_1 usd3000 usd400_005)) "10:00:00 AM")
      = .ok { prices := { BTC := ["50000.10"], ETH := ["3000.00"], BNB := ["400.00"] },
              timestamps := ["10:00:00 AM"] } ∧
    render emptyStore (fetchLivePrices sampleHost
        (.resolved (liveData usd50000_1 usd3000 usd400_005)) "10:00:00 AM")
      ≠ .ok { prices := { BTC := ["50000.10"], ETH := ["3000.00"], BNB := ["400.01"] },
              timestamps := ["10:00:00 AM"] } ∧
    toFixed sampleHost 2 usd1e21 = sampleHost.numberToString usd1e21 := by
  refine ⟨by decide, by rfl, ?_, by rfl⟩
  intro hne
  have hok : render emptyStore (fetchLivePrices sampleHost
        (.resolved (liveData usd50000_1 usd3000 usd400_005)) "10:00:00 AM")
      = .ok { prices := { BTC := ["50000.10"], ETH := ["3000.00"], BNB := ["400.00"] },
              timestamps := ["10:00:00 AM"] } := by rfl
  rw [hok] at hne
  have := congrArg (fun s => s.prices.BNB) (Except.ok.inj hne)
  revert this
  decide

/-- C4, amended: a live response with a USD price for each coin appends, for each coin,
`toFixed(2)` of its price; for a finite price below `10^21` in magnitude that string is
the sign, the decimal digits of the integer part, a point and exactly two fraction
digits, of the multiple of `0.01` nearest to the exact magnitude of the double (the
larger magnitude at a tie); and the response with the prices `50000.1`, `3000` and `400.005` appends
`"50000.10"`, `"3000.00"` and `"400.00"`. -/
theorem live_normalization_two_decimals (h : Host) :
    (∀ (s : Store) (b e n : JsNum) (time : String),
      render s (fetchLivePrices h (.resolved (liveData b e n)) time)
        = .ok { prices := { BTC := slice s.prices.BTC (-9) ++ [toFixed h 2 b],
                            ETH := slice s.prices.ETH (-9) ++ [toFixed h 2 e],
                            BNB := slice s.prices.BNB (-9) ++ [toFixed h 2 n] },
                timestamps := slice s.timestamps (-9) ++ [time] }) ∧
    (∀ (neg : Bool) (m : Nat) (e : Int), atLeast1e21 m e = false →
      toFixed h 2 (.finite neg m e)
        = String.mk ((if (neg && m != 0) = true then ['-'] else []) ++
            (decimal (roundScaled 2 m e / 100) ++
              ['.', Nat.digitChar (roundScaled 2 m e / 10 % 10),
                Nat.digitChar (roundScaled 2 m e % 10)])) ∧
      (roundScaled 2 m e : ℚ) - 1 / 2 ≤ 100 * (m : ℚ) * (2 : ℚ) ^ e ∧
      100 * (m : ℚ) * (2 : ℚ) ^ e < (roundScaled 2 m e : ℚ) + 1 / 2) ∧
    (∀ (s : Store) (time : String),
      render s (fetchLivePrices h (.resolved (liveData usd50000_1 usd3000 usd400_005)) time)
        = .ok { prices := { BTC := slice s.prices.BTC (-9) ++ ["50000.10"],
                            ETH := slice s.prices.ETH (-9) ++ ["3000.00"],
                            BNB := slice s.prices.BNB (-9) ++ ["400.00"] },
                timestamps := slice s.timestamps (-9) ++ [time] }) := by
  refine ⟨fun s b e n time => ?_, fun neg m e hbig => ⟨?_, roundScaled_nearest m e⟩,
    fun s time => ?_⟩
  · rw [render_live, livePricesUpdater_liveData]
  · simp only [toFixed, hbig, fixedDigits_two]
    rfl
  · rw [render_live, livePricesUpdater_liveData]
    rfl

/-- Witness of the amended C4: the price `400.005`, whose nearest multiple of `0.01` is
`400.00`. -/
theorem live_normalization_two_decimals_witness :
    atLeast1e21 7036962378696622 (-44) = false ∧
    toFixed sampleHost 2 usd400_005 = "400.00" ∧
    roundScaled 2 7036962378696622 (-44) = 40000 ∧
    ((40000 : ℚ) - 1 / 2 ≤ 100 * ((7036962378696622 : Nat) : ℚ) * (2 : ℚ) ^ (-44 : Int) ∧
      100 * ((7036962378696622 : Nat) : ℚ) * (2 : ℚ) ^ (-44 : Int) < (40000 : ℚ) + 1 / 2) :=
  ⟨by decide,
   ((live_normalization_two_decimals sampleHost).2.1 false 7036962378696622 (-44)
      (by decide)).1.trans (by decide),
   by decide,
   ((live_normalization_two_decimals sampleHost).2.1 false 7036962378696622 (-44)
      (by decide)).2⟩

/-! ## The mode controller -/

/-- C6 on the code: a live response without `ethereum` does not reach the `catch` of
`fetchLivePrices`, because the response is read inside the updater passed to
`setPrices`: both setters are called, and the `TypeError` is thrown by the re-render.
Only a rejected request is caught, and then the store is untouched. -/
theorem live_missing_field_escapes :
    (fetchLivePrices sampleHost (.resolved noEthereum) "10:00:00 AM").length = 2 ∧
    render oneEntryStore (fetchLivePrices sampleHost (.resolved noEthereum) "10:00:00 AM")
      = .error JsError.typeError ∧
    fetchHistoricalPrices sampleHost "30" (.resolved noEthereum) (.resolved noEthereum)
      (.resolved noEthereum) = [] ∧
    (fetchLivePrices sampleHost .rejected "10:00:00 AM").length = 0 ∧
    render oneEntryStore (fetchLivePrices sampleHost .rejected "10:00:00 AM")
      = .ok oneEntryStore := by
  refine ⟨rfl, rfl, ?_, rfl, rfl⟩
  rfl

theorem modeEffect_mode (a : App) : (modeEffect a).mode = a.mode := by
  unfold modeEffect
  split <;> rfl

theorem runCleanup_mode (a : App) : (runCleanup a).mode = a.mode := by
  unfold runCleanup
  split <;> rfl

theorem setMode_mode (m : String) (a : App) : (setMode m a).mode = m := by
  unfold setMode
  by_cases hm : m = a.mode
  · rw [if_pos hm]; exact hm.symm
  · rw [if_neg hm, modeEffect_mode, runCleanup_mode]

/-- C10: selecting the mode `m` twice in a row leaves the controller (mode, active
timers, cleanup, fetches issued, store) exactly as selecting it once: the second
selection starts no fetch and no timer. -/
theorem mode_selection_idempotent (m : String) (a : App) :
    setMode m (setMode m a) = setMode m a := by
  have hm := setMode_mode m a
  generalize setMode m a = b at hm
  unfold setMode
  rw [if_pos hm.symm]

theorem setMode_owns (m : String) (a : App) (ha : OwnsTimer a) : OwnsTimer (setMode m a) := by
  unfold setMode
  by_cases hm : m = a.mode
  · rw [if_pos hm]; exact ha
  · rw [if_neg hm]
    have hclean : (runCleanup { a with mode := m }).timers = [] := by
      by_cases hl : a.mode = "live"
      · obtain ⟨i, ht, hc⟩ := ha.1 hl
        simp [runCleanup, ht, hc]
      · obtain ⟨ht, hc⟩ := ha.2 hl
        simp [runCleanup, ht, hc]
    generalize runCleanup { a with mode := m } = b at hclean
    unfold modeEffect
    by_cases hl : b.mode = "live"
    · rw [if_pos hl]
      exact ⟨fun _ => ⟨b.nextTimer, by simp [hclean], rfl⟩, fun hne => absurd hl hne⟩
    · rw [if_neg hl]
      exact ⟨fun he => absurd he hl, fun _ => ⟨hclean, rfl⟩⟩

theorem mount_owns : OwnsTimer mount :=
  ⟨fun _ => ⟨0, rfl, rfl⟩, fun hne => absurd rfl hne⟩

theorem tick_owns (i : Nat) (a : App) (ha : OwnsTimer a) : OwnsTimer (tick i a) := by
  unfold tick
  split
  · exact ha
  · exact ha

theorem complete_owns (h : Host) (k : Nat) (c : Completion) (a a1 : App) (ha : OwnsTimer a)
    (hc : complete h k c a = .ok a1) : OwnsTimer a1 := by
  unfold complete at hc
  split at hc
  · split at hc
    · cases hc
    · cases Except.ok.inj hc; exact ha
  · split at hc
    · cases hc
    · cases Except.ok.inj hc; exact ha
  · cases Except.ok.inj hc; exact ha

theorem run_owns (h : Host) (evs : List Event) : ∀ (a a1 : App), OwnsTimer a →
    run h a evs = .ok a1 → OwnsTimer a1 := by
  induction evs with
  | nil =>
    intro a a1 ha hr
    cases Except.ok.inj hr
    exact ha
  | cons ev evs ih =>
    intro a a1 ha hr
    unfold run at hr
    cases hs : step h a ev with
    | error err => rw [hs] at hr; cases hr
    | ok b =>
      rw [hs] at hr
      refine ih b a1 ?_ hr
      cases ev with
      | setMode m => cases Except.ok.inj hs; exact setMode_owns m a ha
      | tick i => cases Except.ok.inj hs; exact tick_owns i a ha
      | complete k c => exact complete_owns h k c a b ha hs

theorem selectAll_owns (ms : List String) : ∀ (a : App), OwnsTimer a →
    OwnsTimer (selectAll a ms) := by
  induction ms with
  | nil => intro a ha; exact ha
  | cons m ms ih => intro a ha; exact ih _ (setMode_owns m a ha)

theorem discipline_of_owns (a : App) (ha : OwnsTimer a) : TimerDiscipline a := by
  by_cases hl : a.mode = "live"
  · obtain ⟨i, ht, -⟩ := ha.1 hl
    refine ⟨by rw [ht]; simp, fun _ => by rw [ht]; rfl, fun hne => absurd hl hne,
      fun hne => absurd hl hne⟩
  · obtain ⟨ht, -⟩ := ha.2 hl
    refine ⟨by rw [ht]; simp, fun he => absurd he hl, fun _ => by rw [ht]; rfl, fun _ i => ?_⟩
    unfold tick
    rw [ht, if_neg (List.not_mem_nil i)]

/-- C9: in every state reached from the mounted component (mode `"live"`) by mode
selections, and more generally by any events, at most one interval timer is active:
exactly one when the mode is `"live"`, none when it is a historical window, where a
timer tick starts no live fetch. -/
theorem timer_discipline :
    (∀ (ms : List String), TimerDiscipline (selectAll mount ms)) ∧
    (∀ (h : Host) (evs : List Event) (a : App), run h mount evs = .ok a →
      TimerDiscipline a) :=
  ⟨fun ms => discipline_of_owns _ (selectAll_owns ms mount mount_owns),
   fun h evs a hr => discipline_of_owns a (run_owns h evs mount a mount_owns hr)⟩

/-- Witness of C9: from live to one year, back to live, a tick, and to one month. -/
theorem timer_discipline_witness :
    run sampleHost mount [.setMode "365", .setMode "live", .tick 1, .setMode "30"]
      = .ok { store := emptyStore, mode := "30", timers := [], cleanup := none,
              pending := [.live, .historical "365", .live, .live, .historical "30"],
              nextTimer := 2 } ∧
    TimerDiscipline
      ({ store := emptyStore, mode := "30", timers := [], cleanup := none,
         pending := [.live, .historical "365", .live, .live, .historical "30"],
         nextTimer := 2 } : App) :=
  ⟨by rfl, timer_discipline.2 sampleHost
    [.setMode "365", .setMode "live", .tick 1, .setMode "30"] _ (by rfl)⟩

theorem setMode_pending (m : String) (a : App) (k : Nat) (r : Request)
    (hp : a.pending.get? k = some r) : (setMode m a).pending.get? k = some r := by
  have hk : k < a.pending.length := by
    by_contra hlt
    rw [List.get?_eq_none.mpr (by omega)] at hp
    cases hp
  unfold setMode
  by_cases hm : m = a.mode
  · rw [if_pos hm]; exact hp
  · rw [if_neg hm]
    have hc : (runCleanup { a with mode := m }).pending = a.pending := by
      unfold runCleanup
      split <;> rfl
    generalize runCleanup { a with mode := m } = b at hc
    unfold modeEffect
    split
    · show (b.pending ++ _).get? k = _
      rw [hc, List.get?_eq_getElem?, List.getElem?_append_left hk, ← List.get?_eq_getElem?]; exact hp
    · show (b.pending ++ _).get? k = _
      rw [hc, List.get?_eq_getElem?, List.getElem?_append_left hk, ← List.get?_eq_getElem?]; exact hp

/-- C8, as stated, fails: a historical fetch issued under the mode `"365"` that completes
after the mode was changed to `"live"` replaces the store. -/
theorem stale_response_counterexample :
    (run sampleHost mount [.setMode "365", .setMode "live"]).map
        (fun a => (a.mode, a.pending, a.store))
      = .ok ("live", [Request.live, Request.historical "365", Request.live], emptyStore) ∧
    (run sampleHost mount [.setMode "365", .setMode "live",
        .complete 1 (.historical (.resolved oneEntryChart) (.resolved oneEntryChart)
          (.resolved oneEntryChart))]).map (fun a => (a.mode, a.store))
      = .ok ("live", oneEntryStore) ∧
    oneEntryStore ≠ emptyStore :=
  ⟨by rfl, by rfl, by decide⟩

/-- C8, amended: a historical fetch in flight whose three requests succeed is applied
when it completes, also after the mode has been changed in between: the store then
holds the sequences computed from its responses, and the mode is the one selected. -/
theorem stale_response_is_applied (h : Host) (a : App) (k : Nat) (days m : String)
    (r0 r1 r2 : Response) (p : Prices) (l : List String)
    (hp : a.pending.get? k = some (Request.historical days))
    (hs : historicalSeries h days r0 r1 r2 = .ok (p, l)) :
    ∃ a1, complete h k (.historical r0 r1 r2) (setMode m a) = .ok a1 ∧
      a1.store = { prices := p, timestamps := l } ∧ a1.mode = m := by
  have hp1 := setMode_pending m a k _ hp
  have hm := setMode_mode m a
  generalize setMode m a = b at hp1 hm
  refine ⟨{ b with store := { prices := p, timestamps := l },
                   pending := b.pending.eraseIdx k }, ?_, rfl, hm⟩
  unfold complete
  rw [hp1]
  simp only [render_historical, hs]

/-- Witness of the amended C8: the fetch issued under `"365"` completes after the
selection of `"live"`. -/
theorem stale_response_is_applied_witness :
    (setMode "365" mount).pending.get? 1 = some (Request.historical "365") ∧
    historicalSeries sampleHost "365" (.resolved oneEntryChart) (.resolved oneEntryChart)
        (.resolved oneEntryChart) = .ok (oneEntryStore.prices, oneEntryStore.timestamps) ∧
    ∃ a1, complete sampleHost 1 (.historical (.resolved oneEntryChart)
          (.resolved oneEntryChart) (.resolved oneEntryChart))
          (setMode "live" (setMode "365" mount)) = .ok a1 ∧
      a1.store = { prices := oneEntryStore.prices, timestamps := oneEntryStore.timestamps } ∧
      a1.mode = "live" :=
  ⟨by rfl, by rfl, stale_response_is_applied sampleHost (setMode "365" mount) 1 "365" "live"
    (.resolved oneEntryChart) (.resolved oneEntryChart) (.resolved oneEntryChart)
    oneEntryStore.prices oneEntryStore.timestamps (by rfl) (by rfl)⟩
end CryptoPulse
